import Mathlib

/-!
# Verification of the Steam binary VDF cache decoder

A shallow embedding of `src/app_info.rs` and `src/package_info.rs`:
the byte-cursor primitives (`u8`, `be_u16`, `le_u32`, `le_u64`, `string`),
the property-tree data model (`Property`), the tag-dispatch tree-decoder
loop (`parseStep` / `parseLoop`), the record decoders
(`parse_app_info`, the package record step inside `pkgLoop`), the two
cache readers (`AppInfo.load`, `PackageInfo.load`) and the path query
(`entry`).

Modelling conventions:
* A byte buffer is a `List Nat` of byte values; Rust `usize` cursors are
  `Nat`.  Indexing a Rust slice out of range panics; every such panic is
  modelled as the error value `Err.panicOOB` (the Rust functions never
  catch it, so a panic aborts the whole load, exactly as an early return
  of this error does).
* `HashMap<String, Property>` is modelled as an association list
  (`PropMap`) whose `insertP` overwrites an existing binding in place
  and otherwise appends, so that a map built only by `insertP` has
  pairwise-distinct keys, matching `HashMap` semantics.  The one place
  the iteration order of a `HashMap` is observable —
  `top_level_props.keys().next()` in `PackageInfo::load` — is modelled
  as the first entry of the association list (the Rust order is
  arbitrary; only which key is *possible* matters to the claims).
* A Rust `String` is modelled by its UTF-8 byte content; the
  `String::from_utf8` validation performed by `string` is modelled by
  the executable `isUtf8` checker.
* The Rust decode loops terminate because every iteration consumes at
  least one byte of a finite buffer; the embedding makes this explicit
  with a fuel parameter, and every entry point supplies
  `buf.length + 1` fuel, which is never exhausted for exactly that
  reason.  The distinguished value `Err.fuelOut` marks the (unreachable)
  fuel-exhaustion branch.
-/

/-- Outcomes of a failed load, separating errors the Rust code returns
(`anyhow!` values and the propagated `from_utf8` failure) from panics
(unchecked slice indexing, `unwrap` on `None`, explicit `panic!`). -/
inductive Err where
  /-- a Rust panic from indexing a slice out of bounds -/
  | panicOOB : Err
  /-- `String::from_utf8` failed; propagated with `?` -/
  | invalidUtf8 : Err
  /-- `anyhow!("Unknown version: ...")` — bad 1-byte major version -/
  | unknownVersion : Err
  /-- `anyhow!("File doesn't contain type sig ...")` — bad magic -/
  | badTypeSig : Err
  /-- `anyhow!("Unknown version2: ...")` — bad 1-byte minor version -/
  | unknownVersion2 : Err
  /-- `anyhow!("Version3 must be 0x01: ...")` — bad format version -/
  | badVersion3 : Err
  /-- the `panic!("Unable to walk back")` / `"Unable to get nested properties"`
  arms of the tree-decoder loop -/
  | panicWalkBack : Err
  /-- `top_level_props.keys().next().unwrap()` panicking on an empty map -/
  | panicRootUnwrap : Err
  /-- the `panic!("Unable to get root property")` arm of the unwrap -/
  | panicRootNotMap : Err
  /-- fuel exhaustion of the embedding; unreachable at the fuel the
  entry points supply -/
  | fuelOut : Err
deriving DecidableEq, Repr

mutual
/-- The `Property` enum of both source files: a tagged value of the
decoded tree.  `String(String)` is modelled as `pstring` over the UTF-8
byte content. -/
inductive Property where
  | uint32 : Nat → Property
  | uint64 : Nat → Property
  | pstring : List Nat → Property
  | map : PropMap → Property

/-- Model of `HashMap<String, Property>` as an association list with
unique keys (maintained by `insertP`). -/
inductive PropMap where
  | nil : PropMap
  | cons : List Nat → Property → PropMap → PropMap
end

/-- Rust `HashMap::insert`: overwrite the binding of `k` if present
(in place), otherwise append the new binding. -/
def PropMap.insertP : PropMap → List Nat → Property → PropMap
  | .nil, k, v => .cons k v .nil
  | .cons k' v' rest, k, v =>
      if k = k' then .cons k v rest else .cons k' v' (rest.insertP k v)

/-- Rust `HashMap::get`: the value bound to `k`, if any. -/
def PropMap.lookupP : PropMap → List Nat → Option Property
  | .nil, _ => none
  | .cons k' v rest, k => if k = k' then some v else rest.lookupP k

/-- Concatenation of two association lists (a specification helper for
reasoning about `insertP` on an absent key). -/
def PropMap.appendM : PropMap → PropMap → PropMap
  | .nil, n => n
  | .cons k v rest, n => .cons k v (rest.appendM n)

/-- Whether key `k` is bound in the map. -/
def PropMap.keyMemB : PropMap → List Nat → Bool
  | .nil, _ => false
  | .cons k' _ rest, k => decide (k = k') || rest.keyMemB k

/-- Follow a path of keys from a map, requiring every step to hit a
`Property.map`; this is how the Rust decoder's "walk back from the root"
(`for name in &path { props = props.get_mut(name).unwrap() ... }`)
relocates its current-map pointer, panicking when a step fails. -/
def walk : PropMap → List (List Nat) → Option PropMap
  | m, [] => some m
  | m, k :: ks =>
    match m.lookupP k with
    | some (.map inner) => walk inner ks
    | _ => none

/-- Apply `g` to the sub-map reached by following `path`, rebuilding the
tree on the way out.  The Rust code holds a `&mut` pointer to the node at
`path` and mutates through it; `updateAt root path g` is the pure image
of that mutation (it fails exactly where the Rust walk would panic). -/
def updateAt : PropMap → List (List Nat) → (PropMap → Option PropMap) → Option PropMap
  | m, [], g => g m
  | m, p :: ps, g =>
    match m.lookupP p with
    | some (.map inner) =>
      match updateAt inner ps g with
      | some i2 => some (m.insertP p (.map i2))
      | none => none
    | _ => none

/-! ## Byte-cursor primitives (shared verbatim by both source files) -/

/-- Rust `fn u8`: read one byte and advance; Rust `buf[*pos]` panics when out
of range. -/
def u8 (buf : List Nat) (pos : Nat) : Except Err (Nat × Nat) :=
  match buf[pos]? with
  | some b => .ok (b, pos + 1)
  | none => .error .panicOOB

/-- Rust `fn be_u16`: two bytes, big-endian. -/
def be_u16 (buf : List Nat) (pos : Nat) : Except Err (Nat × Nat) :=
  match buf[pos]?, buf[pos + 1]? with
  | some b0, some b1 => .ok (b0 * 256 + b1, pos + 2)
  | _, _ => .error .panicOOB

/-- Rust `fn le_u32`: four bytes, little-endian. -/
def le_u32 (buf : List Nat) (pos : Nat) : Except Err (Nat × Nat) :=
  match buf[pos]?, buf[pos + 1]?, buf[pos + 2]?, buf[pos + 3]? with
  | some b0, some b1, some b2, some b3 =>
      .ok (b0 + 256 * b1 + 65536 * b2 + 16777216 * b3, pos + 4)
  | _, _, _, _ => .error .panicOOB

/-- Rust `fn le_u64`: eight bytes, little-endian. -/
def le_u64 (buf : List Nat) (pos : Nat) : Except Err (Nat × Nat) :=
  match buf[pos]?, buf[pos + 1]?, buf[pos + 2]?, buf[pos + 3]?,
        buf[pos + 4]?, buf[pos + 5]?, buf[pos + 6]?, buf[pos + 7]? with
  | some b0, some b1, some b2, some b3, some b4, some b5, some b6, some b7 =>
      .ok (b0 + 256 * b1 + 65536 * b2 + 16777216 * b3
             + 4294967296 * b4 + 1099511627776 * b5
             + 281474976710656 * b6 + 72057594037927936 * b7, pos + 8)
  | _, _, _, _, _, _, _, _ => .error .panicOOB

/-- A UTF-8 continuation byte. -/
def contB (b : Nat) : Bool := 128 ≤ b && b ≤ 191

/-- One transition of the standard UTF-8 acceptance automaton.  State 0
is "between characters"; states 1–3 expect that many ordinary
continuation bytes; states 4–7 are the restricted second-byte states
after lead bytes `E0`, `ED`, `F0`, `F4` (excluding overlong forms,
surrogates and values beyond `U+10FFFF`). -/
def utf8Step (st b : Nat) : Option Nat :=
  if st = 0 then
    if b ≤ 127 then some 0
    else if 194 ≤ b && b ≤ 223 then some 1
    else if b = 224 then some 4
    else if (225 ≤ b && b ≤ 236) || b = 238 || b = 239 then some 2
    else if b = 237 then some 5
    else if b = 240 then some 6
    else if 241 ≤ b && b ≤ 243 then some 3
    else if b = 244 then some 7
    else none
  else if st = 1 then if contB b then some 0 else none
  else if st = 2 then if contB b then some 1 else none
  else if st = 3 then if contB b then some 2 else none
  else if st = 4 then if 160 ≤ b && b ≤ 191 then some 1 else none
  else if st = 5 then if 128 ≤ b && b ≤ 159 then some 1 else none
  else if st = 6 then if 144 ≤ b && b ≤ 191 then some 2 else none
  else if st = 7 then if 128 ≤ b && b ≤ 143 then some 2 else none
  else none

/-- Run the UTF-8 automaton; accept when the input ends between
characters. -/
def utf8Run : Nat → List Nat → Bool
  | st, [] => decide (st = 0)
  | st, b :: rest =>
    match utf8Step st b with
    | some st2 => utf8Run st2 rest
    | none => false

/-- Executable UTF-8 validity, the check performed by
`String::from_utf8`. -/
def isUtf8 (l : List Nat) : Bool := utf8Run 0 l

/-- Length of the prefix of `l` before its first zero byte; the scan of
`fn string` panics (out of bounds) when no zero byte remains. -/
def scanLen : List Nat → Except Err Nat
  | [] => .error .panicOOB
  | b :: rest =>
    if b = 0 then .ok 0
    else
      match scanLen rest with
      | .ok n => .ok (n + 1)
      | .error e => .error e

/-- Rust `fn string`: scan to the next zero byte (panicking at the end of the
buffer), validate the bytes as UTF-8 (`InvalidUtf8` on failure,
propagated by `?`), and advance past the terminator. -/
def string (buf : List Nat) (pos : Nat) : Except Err (List Nat × Nat) :=
  match scanLen (buf.drop pos) with
  | .error e => .error e
  | .ok n =>
    let value := (buf.drop pos).take n
    if isUtf8 value then .ok (value, pos + n + 1) else .error .invalidUtf8

/-! ## The tree decoder (the `loop { match r#type { ... } }` of both files) -/

/-- The mid-loop decoder state: cursor position, `nesting_level`
(an `i32` in the source, so modelled as `Int`), the tree built so far
(`top_level_props`), and `path` — the keys of the currently open maps,
outermost first.  The source also keeps a `&mut` pointer `props` to the
map at `path`; that pointer always denotes `walk root path`, so the
embedding carries only `root` and `path` and performs each
`props.insert(..)` as `updateAt root path (..)`. -/
abbrev PState := Nat × Int × PropMap × List (List Nat)

/-- One iteration of the tree-decoder loop: read the tag byte, dispatch,
then apply the source's break test `nesting_level == 0 && r#type == 0x08`
(checked after the match, on the updated level).  `Sum.inr` is the break
(returning the tree and the cursor just past the final `0x08`),
`Sum.inl` the continuing state. -/
def checkBreak (t : Nat) (p : Nat) (l : Int) (r : PropMap) (pa : List (List Nat)) :
    Except Err (PState ⊕ (PropMap × Nat)) :=
  if l = 0 ∧ t = 8 then .ok (.inr (r, p)) else .ok (.inl (p, l, r, pa))

/-- The body of the tree-decoder loop, one iteration:
* `0x00` begin map — read the key, insert an empty `Map` under it in the
  current map, push the key, descend;
* `0x08` end map — pop the path and walk back from the root (panicking
  if the walk fails, as the source's `panic!("Unable to walk back")`);
* `0x01` string leaf — read key and value strings, insert;
* `0x02` uint32 leaf — read key and 4 LE bytes, insert;
* `0x07` uint64 leaf — the source's body is empty (`// uint64
  (unimplemented)`): nothing is read and nothing inserted;
* any other tag — the source prints a diagnostic and continues,
  consuming only the tag byte. -/
def parseStep (buf : List Nat) (pos : Nat) (level : Int) (root : PropMap)
    (path : List (List Nat)) : Except Err (PState ⊕ (PropMap × Nat)) :=
  match u8 buf pos with
  | .error e => .error e
  | .ok (t, pos1) =>
    if t = 0 then
      match string buf pos1 with
      | .error e => .error e
      | .ok (name, pos2) =>
        match updateAt root path (fun c => some (c.insertP name (.map .nil))) with
        | some root2 => checkBreak t pos2 (level + 1) root2 (path ++ [name])
        | none => .error .panicWalkBack
    else if t = 8 then
      match walk root path.dropLast with
      | some _ => checkBreak t pos1 (level - 1) root path.dropLast
      | none => .error .panicWalkBack
    else if t = 1 then
      match string buf pos1 with
      | .error e => .error e
      | .ok (name, pos2) =>
        match string buf pos2 with
        | .error e => .error e
        | .ok (value, pos3) =>
          match updateAt root path (fun c => some (c.insertP name (.pstring value))) with
          | some root2 => checkBreak t pos3 level root2 path
          | none => .error .panicWalkBack
    else if t = 2 then
      match string buf pos1 with
      | .error e => .error e
      | .ok (name, pos2) =>
        match le_u32 buf pos2 with
        | .error e => .error e
        | .ok (value, pos3) =>
          match updateAt root path (fun c => some (c.insertP name (.uint32 value))) with
          | some root2 => checkBreak t pos3 level root2 path
          | none => .error .panicWalkBack
    else if t = 7 then
      checkBreak t pos1 level root path
    else
      checkBreak t pos1 level root path

/-- The tree-decoder loop.  Every iteration consumes at least the tag
byte, so `buf.length + 1` fuel (what every caller supplies) can never
run out; `Err.fuelOut` marks the unreachable branch. -/
def parseLoop : Nat → List Nat → Nat → Int → PropMap → List (List Nat) →
    Except Err (PropMap × Nat)
  | 0, _, _, _, _, _ => .error .fuelOut
  | f + 1, buf, pos, level, root, path =>
    match parseStep buf pos level root path with
    | .error e => .error e
    | .ok (.inr res) => .ok res
    | .ok (.inl (p, l, r, pa)) => parseLoop f buf p l r pa

/-! ## AppInfo records and cache (`src/app_info.rs`) -/

/-- The `AppInfo` struct: one decoded app record. -/
structure AppInfo where
  state : Nat
  last_updated : Nat
  access_token : Nat
  checksum : List Nat
  change_no : Nat
  props : PropMap

/-- Rust `fn parse_app_info`: the fixed 40-byte record preamble — `state`,
`last_updated`, `access_token`, 20 checksum bytes (`buf[pos..pos+20]`,
panicking when out of range), `change_no` — then one tree-decoder pass
starting with an empty `top_level_props`, empty path and
`nesting_level = 0`. -/
def parse_app_info (buf : List Nat) : Except Err AppInfo :=
  match le_u32 buf 0 with
  | .error e => .error e
  | .ok (state, pos) =>
  match le_u32 buf pos with
  | .error e => .error e
  | .ok (last_updated, pos) =>
  match le_u64 buf pos with
  | .error e => .error e
  | .ok (access_token, pos) =>
  if pos + 20 ≤ buf.length then
    match le_u32 buf (pos + 20) with
    | .error e => .error e
    | .ok (change_no, pos2) =>
      match parseLoop (buf.length + 1) buf pos2 0 .nil [] with
      | .error e => .error e
      | .ok (props, _) =>
        .ok ⟨state, last_updated, access_token, (buf.drop pos).take 20, change_no, props⟩
  else .error .panicOOB

/-- The record loop of `AppInfo::load`: read a 4-byte LE id; id `0` is
the sentinel ending the loop; otherwise read a 4-byte LE size, hand
`parse_app_info` exactly the next `size` bytes (`&buf[pos..pos+size]`,
panicking when out of range) and advance the cursor by exactly `size`. -/
def appLoop : Nat → List Nat → Nat → Except Err (List AppInfo)
  | 0, _, _ => .error .fuelOut
  | f + 1, buf, pos =>
    match le_u32 buf pos with
    | .error e => .error e
    | .ok (app_id, pos1) =>
      if app_id = 0 then .ok []
      else
        match le_u32 buf pos1 with
        | .error e => .error e
        | .ok (size, pos2) =>
          if pos2 + size ≤ buf.length then
            match parse_app_info ((buf.drop pos2).take size) with
            | .error e => .error e
            | .ok info =>
              match appLoop f buf (pos2 + size) with
              | .error e => .error e
              | .ok rest => .ok (info :: rest)
          else .error .panicOOB

/-- Rust `AppInfo::load` (minus the file IO): header validation — major
version in `{0x24, 0x26, 0x27, 0x28}`, big-endian magic `0x4456`, minor
version in `{0x06, 0x07}`, LE format version `1` — then the record
loop. -/
def AppInfo.load (buf : List Nat) : Except Err (List AppInfo) :=
  match u8 buf 0 with
  | .error e => .error e
  | .ok (version, pos) =>
    if version ≠ 0x24 ∧ version ≠ 0x26 ∧ version ≠ 0x27 ∧ version ≠ 0x28 then
      .error .unknownVersion
    else
      match be_u16 buf pos with
      | .error e => .error e
      | .ok (type_sig, pos) =>
        if type_sig ≠ 0x4456 then .error .badTypeSig
        else
          match u8 buf pos with
          | .error e => .error e
          | .ok (version2, pos) =>
            if version2 ≠ 0x06 ∧ version2 ≠ 0x07 then .error .unknownVersion2
            else
              match le_u32 buf pos with
              | .error e => .error e
              | .ok (version3, pos) =>
                if version3 ≠ 0x01 then .error .badVersion3
                else appLoop (buf.length + 1) buf pos

/-! ## PackageInfo records and cache (`src/package_info.rs`) -/

/-- The `PackageInfo` struct: one decoded package record. -/
structure PackageInfo where
  id : Nat
  props : PropMap

/-- Lines 163–167 of `package_info.rs`: take the first key the map
yields (`keys().next().unwrap()`, panicking on an empty map), remove it,
and require its value to be a `Map` (`panic!("Unable to get root
property")` otherwise); the rest of the wrapper map is discarded. -/
def unwrapRoot : PropMap → Except Err PropMap
  | .nil => .error .panicRootUnwrap
  | .cons _ v _ =>
    match v with
    | .map inner => .ok inner
    | _ => .error .panicRootNotMap

/-- The record loop of `PackageInfo::load`: read a 4-byte LE id; id
`0xFFFFFFFF` is the sentinel; otherwise skip the version-dependent
preamble (28 bytes when the file's major version byte is `0x28`, else
20), read `change_no`, run one tree-decoder pass over the same buffer
(no per-record length here), skip one extra byte after the break
(`pos += 1`), unwrap the single top-level wrapper key, and continue. -/
def pkgLoop : Nat → List Nat → Nat → Nat → Except Err (List PackageInfo)
  | 0, _, _, _ => .error .fuelOut
  | f + 1, buf, pos, version =>
    match le_u32 buf pos with
    | .error e => .error e
    | .ok (pkg_id, pos1) =>
      if pkg_id = 0xFFFFFFFF then .ok []
      else
        match le_u32 buf (pos1 + (if version = 0x28 then 28 else 20)) with
        | .error e => .error e
        | .ok (_change_no, pos3) =>
          match parseLoop (buf.length + 1) buf pos3 0 .nil [] with
          | .error e => .error e
          | .ok (root, pos4) =>
            match unwrapRoot root with
            | .error e => .error e
            | .ok inner =>
              match pkgLoop f buf (pos4 + 1) version with
              | .error e => .error e
              | .ok rest => .ok (⟨pkg_id, inner⟩ :: rest)

/-- Rust `PackageInfo::load` (minus the file IO): header validation — major
version in `{0x24, 0x26, 0x27, 0x28}`, big-endian magic `0x5556`, minor
version in `{0x06, 0x07}`, LE format version `1` — then the record loop
(which reuses the major version byte for the preamble length). -/
def PackageInfo.load (buf : List Nat) : Except Err (List PackageInfo) :=
  match u8 buf 0 with
  | .error e => .error e
  | .ok (version, pos) =>
    if version ≠ 0x24 ∧ version ≠ 0x26 ∧ version ≠ 0x27 ∧ version ≠ 0x28 then
      .error .unknownVersion
    else
      match be_u16 buf pos with
      | .error e => .error e
      | .ok (type_sig, pos) =>
        if type_sig ≠ 0x5556 then .error .badTypeSig
        else
          match u8 buf pos with
          | .error e => .error e
          | .ok (version2, pos) =>
            if version2 ≠ 0x06 ∧ version2 ≠ 0x07 then .error .unknownVersion2
            else
              match le_u32 buf pos with
              | .error e => .error e
              | .ok (version3, pos) =>
                if version3 ≠ 0x01 then .error .badVersion3
                else pkgLoop (buf.length + 1) buf pos version

/-! ## The path query (`fn entry` of both files) -/

/-- The loop of `fn entry`, carried state `(props, value, terminal)`:
for each segment, bail out if a terminal (non-map) value was already
reached, look the segment up (absent → `none`), descend on a map and
set `terminal` on a leaf; after the loop return the last value. -/
def entryLoop : PropMap → Option Property → Bool → List (List Nat) → Option Property
  | _, value, _, [] => value
  | props, _, terminal, seg :: rest =>
    if terminal then none
    else
      match props.lookupP seg with
      | none => none
      | some v =>
        match v with
        | .map nested => entryLoop nested (some v) false rest
        | _ => entryLoop props (some v) true rest

/-- Rust `fn entry` (textually identical in `AppInfo` and `PackageInfo`):
walk `path` from a record's property map. -/
def entryP (props : PropMap) (path : List (List Nat)) : Option Property :=
  entryLoop props none false path

/-- Rust `AppInfo::entry`. -/
def AppInfo.entry (a : AppInfo) (path : List (List Nat)) : Option Property :=
  entryP a.props path

/-- Rust `PackageInfo::entry`. -/
def PackageInfo.entry (p : PackageInfo) (path : List (List Nat)) : Option Property :=
  entryP p.props path

/-! ## Specification-side definitions

`lookupSpec` transcribes §4.2 of the specification word for word (for
the refinement claim about `entry`); the encoder and well-formedness
checker below build the "properly nested begin/end tag stream" of an
arbitrary property tree, for the round-trip claim. -/

/-- Modelled from the spec, §4.2: "For each segment except evaluation of
the final one: look up the segment in the current map; if absent, return
nothing; if the found value is itself a Map, descend into it and
continue; if the found value is a leaf and more segments remain, return
nothing.  After consuming all segments, return the last value found.
An empty path returns nothing." -/
def lookupSpec (m : PropMap) : List (List Nat) → Option Property
  | [] => none
  | [k] => m.lookupP k
  | k :: rest =>
    match m.lookupP k with
    | some (.map inner) => lookupSpec inner rest
    | _ => none

/-- The four little-endian bytes of a `u32` value. -/
def le4 (n : Nat) : List Nat :=
  [n % 256, n / 256 % 256, n / 65536 % 256, n / 16777216 % 256]

mutual
/-- Encode one `key ↦ value` entry the way the decoder's tag dispatch
reads it: tag byte, NUL-terminated key, then the payload (a nested map
is its entries bracketed by a final `0x08`).  `uint64` has no encoding
the legacy decoder can read, so it is excluded by `wfValB` and encodes
to `[]`. -/
def encodeProp (k : List Nat) : Property → List Nat
  | .uint32 n => 2 :: (k ++ [0]) ++ le4 n
  | .uint64 _ => []
  | .pstring s => 1 :: (k ++ [0]) ++ (s ++ [0])
  | .map m => 0 :: (k ++ [0]) ++ (encodeEntries m ++ [8])

/-- Encode the entries of a map in association-list order. -/
def encodeEntries : PropMap → List Nat
  | .nil => []
  | .cons k v rest => encodeProp k v ++ encodeEntries rest
end

mutual
/-- Number of tag bytes in the encoding of one entry (= loop iterations
the decoder spends on it). -/
def tagCountP : Property → Nat
  | .map m => tagCountM m + 2
  | _ => 1

/-- Number of tag bytes in the encoding of a map's entries. -/
def tagCountM : PropMap → Nat
  | .nil => 0
  | .cons _ v rest => tagCountP v + tagCountM rest
end

/-- An encodable text chunk: nonzero ASCII bytes, so it contains no NUL
terminator and is trivially valid UTF-8. -/
def asciiB (s : List Nat) : Bool := s.all fun b => decide (1 ≤ b) && decide (b ≤ 127)

mutual
/-- A property value the byte format can represent and round-trip:
`uint32` values fit in 32 bits, strings are nonzero ASCII, no `uint64`
(the legacy decoder cannot read one), and nested maps are well-formed. -/
def wfValB : Property → Bool
  | .uint32 n => decide (n < 4294967296)
  | .uint64 _ => false
  | .pstring s => asciiB s
  | .map m => wfMapB m

/-- A map whose keys are encodable and pairwise distinct and whose
values are well-formed. -/
def wfMapB : PropMap → Bool
  | .nil => true
  | .cons k v rest => asciiB k && wfValB v && !(rest.keyMemB k) && wfMapB rest
end

/-- Insert every entry of the second map into the first, in order —
the cumulative effect of the decoder's `insert` calls on one map. -/
def insertAll (cur : PropMap) : PropMap → PropMap
  | .nil => cur
  | .cons k v rest => insertAll (cur.insertP k v) rest

/-- A decoder-stack zipper frame list: innermost open map first, each
frame holding the parent map's contents so far and the key under which
the open map sits.  `plug cur ctx` rebuilds the whole tree
(`top_level_props`) from the currently open map `cur`. -/
def plug : PropMap → List (PropMap × List Nat) → PropMap
  | cur, [] => cur
  | cur, (parent, k) :: rest => plug (parent.insertP k (.map cur)) rest

/-- The `path` list of the decoder state corresponding to a zipper:
outermost key first. -/
def pathOf (ctx : List (PropMap × List Nat)) : List (List Nat) :=
  (ctx.map Prod.snd).reverse

deriving instance DecidableEq for Property, PropMap

/-! ## Concrete byte streams used by the claim theorems -/

/-- A record tree stream that is valid per the specification's uint64
layout: begin map `"a"`, then tag `0x07` with key `"k"` and the 8
little-endian value bytes `1..8`, then the two closing `0x08`s. -/
def c1buf : List Nat := [0, 0x61, 0, 7, 0x6B, 0, 1, 2, 3, 4, 5, 6, 7, 8, 8, 8]

/-- A record tree stream containing the unrecognized tag byte `0x03`
between a begin-map and its end-map. -/
def c2buf : List Nat := [0, 0x61, 0, 3, 8]

/-- An AppInfo record slice (40-byte preamble, then a begin-map whose
matching `0x08` is missing): the buffer ends with the map still open. -/
def c3buf : List Nat := List.replicate 40 0 ++ [0, 0x61, 0]

/-- A PackageInfo cache whose single record's tree stream
`08 | 00 "a" | 08 | 00 "x" | 00 "y" | 08` is unbalanced in a way that
still reaches the break test, leaving the wrapper map with TWO top-level
keys (`"a"` and `"x"`); a pad byte `0xAB` absorbs the post-break skip
and the sentinel follows. -/
def c4buf : List Nat :=
  [0x27, 0x55, 0x56, 6, 1, 0, 0, 0] ++ [7, 0, 0, 0] ++ List.replicate 20 0 ++ [0, 0, 0, 0]
    ++ [8, 0, 0x61, 0, 8, 0, 0x78, 0, 0, 0x79, 0, 8] ++ [0xAB] ++ [0xFF, 0xFF, 0xFF, 0xFF]

/-- The two-key wrapper map decoded from the tree stream of `c4buf`. -/
def c4tree : PropMap :=
  .cons [0x61] (.map .nil) (.cons [0x78] (.map (.cons [0x79] (.map .nil) .nil)) .nil)

/-- A PackageInfo cache laid out exactly as claim C9 accounts bytes:
header, id 7, 20-byte preamble, `change_number`, one tree-decoder pass
(`00 "a" 00 | 08`), and then immediately the sentinel — no extra byte
between the tree and the next id. -/
def c9buf : List Nat :=
  [0x27, 0x55, 0x56, 6, 1, 0, 0, 0] ++ [7, 0, 0, 0] ++ List.replicate 20 0 ++ [0, 0, 0, 0]
    ++ [0, 0x61, 0, 8] ++ [0xFF, 0xFF, 0xFF, 0xFF]

/-- A PackageInfo cache like `c9buf` but with one pad byte `0xCD`
between the tree stream and the sentinel. -/
def c9wbuf : List Nat :=
  [0x27, 0x55, 0x56, 6, 1, 0, 0, 0] ++ [9, 0, 0, 0] ++ List.replicate 20 0 ++ [0, 0, 0, 0]
    ++ [0, 0x7A, 0, 8] ++ [0xCD] ++ [0xFF, 0xFF, 0xFF, 0xFF]

/-! ## C1 — the uint64 (0x07) leaf -/

/-- C1: the claim says that on tag byte `0x07` the tree decoder reads a
NUL-terminated key and 8 little-endian bytes and inserts a `UInt64`
under that key, advancing past them.  The code's `0x07` arm is empty
(`// uint64 (unimplemented)`): the first conjunct shows the iteration
at the `0x07` tag of `c1buf` (position 3, inside map `"a"`) consumes
exactly one byte and changes nothing else; the second shows the whole
decode of this specification-valid stream desynchronizes and dies with
an out-of-bounds panic instead of producing
`{a: {k: UInt64 0x0807060504030201}}`. -/
theorem claim1_uint64_tag_is_noop :
    parseStep c1buf 3 1 (PropMap.cons [0x61] (.map .nil) .nil) [[0x61]]
        = .ok (.inl (4, 1, PropMap.cons [0x61] (.map .nil) .nil, [[0x61]])) ∧
      parseLoop (c1buf.length + 1) c1buf 0 0 .nil [] = .error .panicOOB := by
  exact ⟨rfl, rfl⟩

/-! ## C2 — unknown tag bytes -/

/-- C2 counterexample: the claim says a tag byte outside
`{0x00, 0x08, 0x01, 0x02, 0x07}` makes the whole record decode fail
with an `UnknownTagKind` error.  Decoding `c2buf`, which contains the
unknown tag `0x03`, succeeds (no error of any kind): the decoder skips
the byte and returns the tree `{a: {}}`. -/
theorem claim2_unknown_tag_not_an_error :
    parseLoop (c2buf.length + 1) c2buf 0 0 .nil []
      = .ok (PropMap.cons [0x61] (.map .nil) .nil, 5) := by
  exact rfl

/-- C2 as amended: on a tag byte that is none of
`0x00, 0x08, 0x01, 0x02, 0x07`, the tree decoder prints a diagnostic and
continues with the next iteration, consuming exactly one byte (the tag)
and leaving level, tree and path unchanged; no error is raised at that
tag. -/
theorem claim2_unknown_tag_skips_one_byte
    (buf : List Nat) (pos : Nat) (level : Int) (root : PropMap)
    (path : List (List Nat)) (t : Nat)
    (hget : buf[pos]? = some t)
    (h0 : t ≠ 0) (h8 : t ≠ 8) (h1 : t ≠ 1) (h2 : t ≠ 2) (h7 : t ≠ 7) :
    parseStep buf pos level root path = .ok (.inl (pos + 1, level, root, path)) := by
  simp [parseStep, u8, hget, h0, h8, h1, h2, h7, checkBreak]

/-- Witness for `claim2_unknown_tag_skips_one_byte` at the concrete
stream `[3, 8]`, tag `0x03` at position 0. -/
theorem claim2_unknown_tag_skips_one_byte_witness :
    parseStep [3, 8] 0 5 .nil [] = .ok (.inl (1, 5, .nil, [])) := by
  exact claim2_unknown_tag_skips_one_byte [3, 8] 0 5 .nil [] 3 rfl
    (by decide) (by decide) (by decide) (by decide) (by decide)

/-! ## C3 — truncated / unbalanced records -/

/-- C3: the claim says a record whose buffer ends before the open-map
stack empties yields a `Truncated` error value and never panics.  The
code has no `Truncated` error and no bounds checks: decoding the
truncated record `c3buf` (an opened map with no closing `0x08` and no
further bytes) hits `buf[*pos]` out of range — a panic, modelled as
`Err.panicOOB`. -/
theorem claim3_truncated_record_panics :
    parse_app_info c3buf = .error .panicOOB := by
  exact rfl

deriving instance DecidableEq for AppInfo, PackageInfo

/-! ## C4 — the PackageInfo wrapper unwrap -/

/-- C4 counterexample: the claim says that when the decoded tree does
not contain exactly one top-level key the whole load fails with a
`MalformedWrapper` error.  The record of `c4buf` decodes to the
two-key wrapper `c4tree` (first conjunct), yet the load succeeds with
no error, silently exposing the first key's (empty) map (second
conjunct). -/
theorem claim4_two_key_wrapper_loads_fine :
    parseLoop (c4buf.length + 1) c4buf 36 0 .nil [] = .ok (c4tree, 48) ∧
      PackageInfo.load c4buf = .ok [⟨7, .nil⟩] := by
  exact ⟨rfl, rfl⟩

/-- C4 as amended: after the tree decode the record decoder takes the
first key the wrapper map yields and exposes the map beneath it as the
record's root tree, silently discarding any further top-level keys (no
error is raised for two or more); on zero keys it panics
(`keys().next().unwrap()`), and it panics when the first value is not a
map — there is no `MalformedWrapper` error. -/
theorem claim4_unwrap_takes_first_key :
    (∀ (k : List Nat) (inner rest : PropMap),
        unwrapRoot (.cons k (.map inner) rest) = .ok inner) ∧
      unwrapRoot .nil = .error .panicRootUnwrap ∧
      (∀ (k : List Nat) (n : Nat) (rest : PropMap),
        unwrapRoot (.cons k (.uint32 n) rest) = .error .panicRootNotMap) := by
  exact ⟨fun _ _ _ => rfl, rfl, fun _ _ _ => rfl⟩

/-! ## C9 — PackageInfo record framing -/

/-- C9 counterexample: the claim says the bytes consumed between one
PackageInfo record id and the next are exactly preamble (20 here, major
version `0x27`) + 4 (change number) + one tree-decoder pass.  `c9buf`
is laid out precisely that way — the sentinel follows the record's
final `0x08` immediately — yet the load panics out of bounds: the code
skips one extra byte after the tree pass (`pos += 1`), eats the first
sentinel byte, and reads the next id one byte late, running off the end
of the buffer instead of returning the one-record result the claim
implies. -/
theorem claim9_exact_layout_misparses :
    PackageInfo.load c9buf = .error .panicOOB := by
  exact rfl

/-- C9 as amended: between reading a PackageInfo record's id and the
next record's id the loop consumes the version-dependent preamble (28
bytes for file version tag `0x28`, 20 for the others) plus 4 bytes of
change number plus the bytes of one tree-decoder pass plus ONE extra
skipped byte after the tree's final `0x08`; the loop resumes at
`posT + 1`, where `posT` is the position the tree pass stopped at. -/
theorem claim9_record_framing
    (f : Nat) (buf : List Nat) (pos ver id chg posC posT : Nat)
    (root inner : PropMap)
    (hid : le_u32 buf pos = .ok (id, pos + 4)) (hsent : id ≠ 0xFFFFFFFF)
    (hchg : le_u32 buf (pos + 4 + (if ver = 0x28 then 28 else 20)) = .ok (chg, posC))
    (htree : parseLoop (buf.length + 1) buf posC 0 .nil [] = .ok (root, posT))
    (hun : unwrapRoot root = .ok inner) :
    pkgLoop (f + 1) buf pos ver =
      match pkgLoop f buf (posT + 1) ver with
      | .ok rest => .ok (⟨id, inner⟩ :: rest)
      | .error e => .error e := by
  simp only [pkgLoop, hid, hsent, ne_eq, not_false_eq_true, if_neg, hchg, htree, hun]
  cases pkgLoop f buf (posT + 1) ver <;> rfl

/-- Witness for `claim9_record_framing` on `c9wbuf` (version `0x27`,
record id 9, tree pass ending at 40): the loop resumes at 41, lands on
the sentinel, and the load yields exactly one record. -/
theorem claim9_record_framing_witness :
    pkgLoop 2 c9wbuf 8 0x27 = .ok [⟨9, .nil⟩] := by
  rw [claim9_record_framing 1 c9wbuf 8 0x27 9 0 36 40
    (.cons [0x7A] (.map .nil) .nil) .nil rfl (by decide) rfl rfl rfl]
  rfl

/-! ## C10 — AppInfo declared record length frames the cursor -/

/-- C10: once `AppInfo::load` reads a record's id (non-sentinel) and
4-byte declared size, hands `parse_app_info` exactly the `size`-byte
slice `&buf[pos+8 .. pos+8+size]`, and the record parse succeeds, the
loop resumes exactly at `pos + 8 + size` — the cursor advances by
exactly the declared length, independent of how many slice bytes the
record decoder consumed, and a short consume is not an error. -/
theorem claim10_declared_length_frames_record
    (f : Nat) (buf : List Nat) (pos id size : Nat) (info : AppInfo)
    (hid : le_u32 buf pos = .ok (id, pos + 4)) (hnz : id ≠ 0)
    (hsize : le_u32 buf (pos + 4) = .ok (size, pos + 8))
    (hb : pos + 8 + size ≤ buf.length)
    (hparse : parse_app_info ((buf.drop (pos + 8)).take size) = .ok info) :
    appLoop (f + 1) buf pos =
      match appLoop f buf (pos + 8 + size) with
      | .ok rest => .ok (info :: rest)
      | .error e => .error e := by
  simp only [appLoop, hid, hnz, ne_eq, not_false_eq_true, if_neg, hsize, hb, if_pos, hparse]
  cases appLoop f buf (pos + 8 + size) <;> rfl

/-- An AppInfo cache record-region for the C10 witness: record id 1
declares 46 bytes, but the record's tree pass consumes only 44 of them
(40-byte preamble + the 4-byte stream `00 "a" 00 08`); the two junk
bytes `AA BB` inside the declared slice are never read, and the
sentinel follows at offset 54. -/
def c10buf : List Nat :=
  [1, 0, 0, 0] ++ [46, 0, 0, 0]
    ++ (List.replicate 40 0 ++ [0, 0x61, 0, 8] ++ [0xAA, 0xBB]) ++ [0, 0, 0, 0]

/-- The record decoded from the slice of `c10buf`. -/
def c10info : AppInfo :=
  ⟨0, 0, 0, List.replicate 20 0, 0, .cons [0x61] (.map .nil) .nil⟩

/-- Witness for `claim10_declared_length_frames_record` on `c10buf`:
the record decoder consumes 44 of the 46 declared bytes, yet the load
succeeds and the next id is read exactly 46 bytes further, hitting the
sentinel. -/
theorem claim10_declared_length_frames_record_witness :
    appLoop 2 c10buf 0 = .ok [c10info] := by
  rw [claim10_declared_length_frames_record 1 c10buf 0 1 46 c10info rfl
    (by decide) rfl (by decide) rfl]
  rfl

/-! ## C7 — sentinel ids -/

/-- C7: a valid header immediately followed by the cache's own sentinel
id — `0` for the AppInfo cache, `0xFFFFFFFF` for the PackageInfo
cache — makes `load` return an empty record sequence and no error,
whatever bytes (if any) follow the sentinel; and only those respective
values terminate the loop: whenever the id just read is not the cache's
own sentinel, the record loop never returns an empty sequence (it
decodes a record or fails). -/
theorem claim7_sentinels :
    (∀ (buf : List Nat) (b0 b3 : Nat),
        buf[0]? = some b0 → (b0 = 0x24 ∨ b0 = 0x26 ∨ b0 = 0x27 ∨ b0 = 0x28) →
        buf[1]? = some 0x44 → buf[2]? = some 0x56 →
        buf[3]? = some b3 → (b3 = 6 ∨ b3 = 7) →
        buf[4]? = some 1 → buf[5]? = some 0 → buf[6]? = some 0 → buf[7]? = some 0 →
        buf[8]? = some 0 → buf[9]? = some 0 → buf[10]? = some 0 → buf[11]? = some 0 →
        AppInfo.load buf = .ok []) ∧
      (∀ (buf : List Nat) (b0 b3 : Nat),
        buf[0]? = some b0 → (b0 = 0x24 ∨ b0 = 0x26 ∨ b0 = 0x27 ∨ b0 = 0x28) →
        buf[1]? = some 0x55 → buf[2]? = some 0x56 →
        buf[3]? = some b3 → (b3 = 6 ∨ b3 = 7) →
        buf[4]? = some 1 → buf[5]? = some 0 → buf[6]? = some 0 → buf[7]? = some 0 →
        buf[8]? = some 0xFF → buf[9]? = some 0xFF → buf[10]? = some 0xFF →
        buf[11]? = some 0xFF →
        PackageInfo.load buf = .ok []) ∧
      (∀ (f : Nat) (buf : List Nat) (pos id pos1 : Nat),
        le_u32 buf pos = .ok (id, pos1) → id ≠ 0 → appLoop (f + 1) buf pos ≠ .ok []) ∧
      (∀ (f : Nat) (buf : List Nat) (pos ver id pos1 : Nat),
        le_u32 buf pos = .ok (id, pos1) → id ≠ 0xFFFFFFFF →
        pkgLoop (f + 1) buf pos ver ≠ .ok []) := by
  refine ⟨fun buf b0 b3 h0 hb0 h1 h2 h3 hb3 h4 h5 h6 h7 h8 h9 h10 h11 => ?_,
    fun buf b0 b3 h0 hb0 h1 h2 h3 hb3 h4 h5 h6 h7 h8 h9 h10 h11 => ?_,
    fun f buf pos id pos1 hid hnz => ?_,
    fun f buf pos ver id pos1 hid hnz => ?_⟩
  · have e0 : u8 buf 0 = .ok (b0, 1) := by simp [u8, h0]
    have e1 : be_u16 buf 1 = .ok (0x4456, 3) := by norm_num [be_u16, h1, h2]
    have e3 : u8 buf 3 = .ok (b3, 4) := by simp [u8, h3]
    have e4 : le_u32 buf 4 = .ok (1, 8) := by norm_num [le_u32, h4, h5, h6, h7]
    have e8 : le_u32 buf 8 = .ok (0, 12) := by norm_num [le_u32, h8, h9, h10, h11]
    rcases hb0 with rfl | rfl | rfl | rfl <;> rcases hb3 with rfl | rfl <;>
      simp [AppInfo.load, e0, e1, e3, e4, appLoop, e8]
  · have e0 : u8 buf 0 = .ok (b0, 1) := by simp [u8, h0]
    have e1 : be_u16 buf 1 = .ok (0x5556, 3) := by norm_num [be_u16, h1, h2]
    have e3 : u8 buf 3 = .ok (b3, 4) := by simp [u8, h3]
    have e4 : le_u32 buf 4 = .ok (1, 8) := by norm_num [le_u32, h4, h5, h6, h7]
    have e8 : le_u32 buf 8 = .ok (0xFFFFFFFF, 12) := by
      norm_num [le_u32, h8, h9, h10, h11]
    rcases hb0 with rfl | rfl | rfl | rfl <;> rcases hb3 with rfl | rfl <;>
      simp [PackageInfo.load, e0, e1, e3, e4, pkgLoop, e8]
  · simp only [appLoop, hid, hnz, ne_eq, not_false_eq_true, if_neg]
    split
    · simp
    · split
      · split
        · simp
        · split
          · simp
          · simp
      · simp
  · simp only [pkgLoop, hid, hnz, ne_eq, not_false_eq_true, if_neg]
    split
    · simp
    · split
      · simp
      · split
        · simp
        · split
          · simp
          · simp

/-- Witness for `claim7_sentinels`: concrete header-plus-sentinel
buffers (major version `0x27`, minor `0x06`, nothing after the
sentinel) load to empty record lists, and id `1` at position 0 of the
tiny buffer `[1, 0, 0, 0]` does not terminate the AppInfo loop with an
empty result. -/
theorem claim7_sentinels_witness :
    AppInfo.load [0x27, 0x44, 0x56, 6, 1, 0, 0, 0, 0, 0, 0, 0] = .ok [] ∧
      PackageInfo.load [0x27, 0x55, 0x56, 6, 1, 0, 0, 0, 0xFF, 0xFF, 0xFF, 0xFF] = .ok [] ∧
      appLoop 1 [1, 0, 0, 0] 0 ≠ .ok [] := by
  refine ⟨claim7_sentinels.1 [0x27, 0x44, 0x56, 6, 1, 0, 0, 0, 0, 0, 0, 0] 0x27 6
      rfl (by decide) rfl rfl rfl (by decide) rfl rfl rfl rfl rfl rfl rfl rfl,
    claim7_sentinels.2.1 [0x27, 0x55, 0x56, 6, 1, 0, 0, 0, 0xFF, 0xFF, 0xFF, 0xFF] 0x27 6
      rfl (by decide) rfl rfl rfl (by decide) rfl rfl rfl rfl rfl rfl rfl rfl,
    claim7_sentinels.2.2.1 0 [1, 0, 0, 0] 0 1 4 rfl (by decide)⟩

/-! ## C8 — header validation -/

/-- C8: both loads validate the header in order on the first 8 bytes:
1-byte major version against the allow-list `{0x24, 0x26, 0x27, 0x28}`
(else the unsupported-version error, before anything else is checked);
2-byte big-endian magic — `0x4456` for AppInfo, `0x5556` for
PackageInfo, two distinct signatures (else the bad-magic error); 1-byte
minor version in `{0x06, 0x07}`; 4-byte little-endian format version
equal to `1` (else the bad-format-version error).  When all four checks
pass, no error is returned at the header: the load proceeds directly
into the record loop at offset 8. -/
theorem claim8_header_validation
    (buf : List Nat) (b0 b1 b2 b3 b4 b5 b6 b7 : Nat)
    (h0 : buf[0]? = some b0) (h1 : buf[1]? = some b1) (h2 : buf[2]? = some b2)
    (h3 : buf[3]? = some b3) (h4 : buf[4]? = some b4) (h5 : buf[5]? = some b5)
    (h6 : buf[6]? = some b6) (h7 : buf[7]? = some b7) :
    (¬(b0 = 0x24 ∨ b0 = 0x26 ∨ b0 = 0x27 ∨ b0 = 0x28) →
        AppInfo.load buf = .error .unknownVersion ∧
          PackageInfo.load buf = .error .unknownVersion) ∧
      ((b0 = 0x24 ∨ b0 = 0x26 ∨ b0 = 0x27 ∨ b0 = 0x28) →
        (b1 * 256 + b2 ≠ 0x4456 → AppInfo.load buf = .error .badTypeSig) ∧
          (b1 * 256 + b2 ≠ 0x5556 → PackageInfo.load buf = .error .badTypeSig)) ∧
      ((b0 = 0x24 ∨ b0 = 0x26 ∨ b0 = 0x27 ∨ b0 = 0x28) → ¬(b3 = 6 ∨ b3 = 7) →
        (b1 = 0x44 → b2 = 0x56 → AppInfo.load buf = .error .unknownVersion2) ∧
          (b1 = 0x55 → b2 = 0x56 → PackageInfo.load buf = .error .unknownVersion2)) ∧
      ((b0 = 0x24 ∨ b0 = 0x26 ∨ b0 = 0x27 ∨ b0 = 0x28) → (b3 = 6 ∨ b3 = 7) →
        b4 + 256 * b5 + 65536 * b6 + 16777216 * b7 ≠ 1 →
        (b1 = 0x44 → b2 = 0x56 → AppInfo.load buf = .error .badVersion3) ∧
          (b1 = 0x55 → b2 = 0x56 → PackageInfo.load buf = .error .badVersion3)) ∧
      ((b0 = 0x24 ∨ b0 = 0x26 ∨ b0 = 0x27 ∨ b0 = 0x28) → (b3 = 6 ∨ b3 = 7) →
        b4 + 256 * b5 + 65536 * b6 + 16777216 * b7 = 1 →
        (b1 = 0x44 → b2 = 0x56 →
            AppInfo.load buf = appLoop (buf.length + 1) buf 8) ∧
          (b1 = 0x55 → b2 = 0x56 →
            PackageInfo.load buf = pkgLoop (buf.length + 1) buf 8 b0)) := by
  have e0 : u8 buf 0 = .ok (b0, 1) := by simp [u8, h0]
  have e1 : be_u16 buf 1 = .ok (b1 * 256 + b2, 3) := by simp [be_u16, h1, h2]
  have e3 : u8 buf 3 = .ok (b3, 4) := by simp [u8, h3]
  have e4 : le_u32 buf 4 = .ok (b4 + 256 * b5 + 65536 * b6 + 16777216 * b7, 8) := by
    simp [le_u32, h4, h5, h6, h7]
  refine ⟨fun hbad => ?_, fun hok => ⟨fun hmagA => ?_, fun hmagP => ?_⟩,
    fun hok hminbad => ⟨fun hB1 hB2 => ?_, fun hB1 hB2 => ?_⟩,
    fun hok hmin hfmt => ⟨fun hB1 hB2 => ?_, fun hB1 hB2 => ?_⟩,
    fun hok hmin hfmt => ⟨fun hB1 hB2 => ?_, fun hB1 hB2 => ?_⟩⟩
  · have hc : b0 ≠ 0x24 ∧ b0 ≠ 0x26 ∧ b0 ≠ 0x27 ∧ b0 ≠ 0x28 := by tauto
    constructor <;>
      simp [AppInfo.load, PackageInfo.load, e0, hc.1, hc.2.1, hc.2.2.1, hc.2.2.2]
  · rcases hok with rfl | rfl | rfl | rfl <;> simp [AppInfo.load, e0, e1, hmagA]
  · rcases hok with rfl | rfl | rfl | rfl <;> simp [PackageInfo.load, e0, e1, hmagP]
  · subst hB1; subst hB2
    have hc : b3 ≠ 6 ∧ b3 ≠ 7 := by tauto
    rcases hok with rfl | rfl | rfl | rfl <;>
      simp [AppInfo.load, e0, e1, e3, hc.1, hc.2]
  · subst hB1; subst hB2
    have hc : b3 ≠ 6 ∧ b3 ≠ 7 := by tauto
    rcases hok with rfl | rfl | rfl | rfl <;>
      simp [PackageInfo.load, e0, e1, e3, hc.1, hc.2]
  · subst hB1; subst hB2
    rcases hok with rfl | rfl | rfl | rfl <;> rcases hmin with rfl | rfl <;>
      simp [AppInfo.load, e0, e1, e3, e4, hfmt]
  · subst hB1; subst hB2
    rcases hok with rfl | rfl | rfl | rfl <;> rcases hmin with rfl | rfl <;>
      simp [PackageInfo.load, e0, e1, e3, e4, hfmt]
  · subst hB1; subst hB2
    rcases hok with rfl | rfl | rfl | rfl <;> rcases hmin with rfl | rfl <;>
      simp [AppInfo.load, e0, e1, e3, e4, hfmt]
  · subst hB1; subst hB2
    rcases hok with rfl | rfl | rfl | rfl <;> rcases hmin with rfl | rfl <;>
      simp [PackageInfo.load, e0, e1, e3, e4, hfmt]

/-- Witness for `claim8_header_validation`: on the 8-byte buffer holding
a fully valid AppInfo header (major `0x28`, magic `0x4456`, minor
`0x07`, format version 1), the load equals the record loop started at
offset 8 with fuel 9. -/
theorem claim8_header_validation_witness :
    AppInfo.load [0x28, 0x44, 0x56, 7, 1, 0, 0, 0]
      = appLoop 9 [0x28, 0x44, 0x56, 7, 1, 0, 0, 0] 8 := by
  exact ((claim8_header_validation [0x28, 0x44, 0x56, 7, 1, 0, 0, 0]
      0x28 0x44 0x56 7 1 0 0 0 rfl rfl rfl rfl rfl rfl rfl rfl).2.2.2.2
    (by decide) (by decide) (by decide)).1 rfl rfl

/-! ## C6 — the path query -/

/-- Once a terminal (non-map) value has been reached with path segments
remaining, the entry loop returns nothing. -/
theorem entryLoop_terminal (m : PropMap) (v : Option Property) (seg : List Nat)
    (rest : List (List Nat)) : entryLoop m v true (seg :: rest) = none := by
  simp [entryLoop]

/-- The entry loop in its non-terminal state agrees with the
specification's recursive lookup on any nonempty path, whatever value
accumulator it carries. -/
theorem entryLoop_eq_lookupSpec (path : List (List Nat)) :
    ∀ (m : PropMap) (v : Option Property), path ≠ [] →
      entryLoop m v false path = lookupSpec m path := by
  induction path with
  | nil => exact fun m v h => absurd rfl h
  | cons seg rest ih =>
    intro m v _
    cases hlk : m.lookupP seg with
    | none =>
      cases rest with
      | nil => simp [entryLoop, lookupSpec, hlk]
      | cons r rs => simp [entryLoop, lookupSpec, hlk]
    | some v2 =>
      cases v2 with
      | map nested =>
        cases rest with
        | nil => simp [entryLoop, lookupSpec, hlk]
        | cons r rs =>
          simp only [entryLoop, if_neg Bool.false_ne_true, hlk, lookupSpec]
          exact ih nested (some (.map nested)) (by simp)
      | uint32 n =>
        cases rest with
        | nil => simp [entryLoop, lookupSpec, hlk]
        | cons r rs => simp [entryLoop, lookupSpec, hlk, entryLoop_terminal]
      | uint64 n =>
        cases rest with
        | nil => simp [entryLoop, lookupSpec, hlk]
        | cons r rs => simp [entryLoop, lookupSpec, hlk, entryLoop_terminal]
      | pstring s =>
        cases rest with
        | nil => simp [entryLoop, lookupSpec, hlk]
        | cons r rs => simp [entryLoop, lookupSpec, hlk, entryLoop_terminal]

/-- C6: for every decoded record and every path, the path query
(`AppInfo::entry` / `PackageInfo::entry`, both wrappers over the same
loop) returns exactly what §4.2 of the specification prescribes —
nothing on an empty path, nothing when a segment is absent, nothing
when a non-final segment resolves to a leaf, and otherwise the value
(leaf or map) reached after the final segment (`lookupSpec` transcribes
that prescription verbatim). -/
theorem claim6_entry_matches_spec :
    ∀ (a : AppInfo) (pk : PackageInfo) (path : List (List Nat)),
      a.entry path = lookupSpec a.props path ∧
        pk.entry path = lookupSpec pk.props path := by
  have core : ∀ (m : PropMap) (path : List (List Nat)), entryP m path = lookupSpec m path := by
    intro m path
    cases path with
    | nil => rfl
    | cons seg rest => exact entryLoop_eq_lookupSpec (seg :: rest) m none (by simp)
  exact fun a pk path => ⟨core a.props path, core pk.props path⟩

/-! ## C5 — infrastructure: counted decoder steps -/

/-- Exactly `n` continuing (non-break) iterations of the tree-decoder
loop connect the two states. -/
inductive StepsN (buf : List Nat) :
    Nat → Nat → Int → PropMap → List (List Nat) →
    Nat → Int → PropMap → List (List Nat) → Prop where
  | refl (pos : Nat) (level : Int) (root : PropMap) (path : List (List Nat)) :
      StepsN buf 0 pos level root path pos level root path
  | step {pos level root path p1 l1 r1 pa1 n p2 l2 r2 pa2} :
      parseStep buf pos level root path = .ok (.inl (p1, l1, r1, pa1)) →
      StepsN buf n p1 l1 r1 pa1 p2 l2 r2 pa2 →
      StepsN buf (n + 1) pos level root path p2 l2 r2 pa2

/-- One continuing iteration is one counted step. -/
theorem StepsN.single {buf : List Nat} {pos : Nat} {level : Int} {root : PropMap}
    {path : List (List Nat)} {p1 l1 r1 pa1}
    (h : parseStep buf pos level root path = .ok (.inl (p1, l1, r1, pa1))) :
    StepsN buf 1 pos level root path p1 l1 r1 pa1 :=
  .step h (.refl p1 l1 r1 pa1)

/-- Counted steps compose; the total is supplied as an equation so the
count can be stated in any convenient arithmetic form. -/
theorem StepsN.comp {buf : List Nat} {n m nm : Nat}
    {p0 l0 r0 pa0 p1 l1 r1 pa1 p2 l2 r2 pa2}
    (h1 : StepsN buf n p0 l0 r0 pa0 p1 l1 r1 pa1)
    (h2 : StepsN buf m p1 l1 r1 pa1 p2 l2 r2 pa2)
    (he : nm = n + m) :
    StepsN buf nm p0 l0 r0 pa0 p2 l2 r2 pa2 := by
  subst he
  induction h1 with
  | refl => simpa using h2
  | @step pos level root path q1 m1 s1 qa1 k q2 m2 s2 qa2 hs _ ih =>
    have h3 := ih h2
    have harith : k + 1 + m = k + m + 1 := by omega
    rw [harith]
    exact .step hs h3

/-- Counted steps translate fuel: `n` continuing iterations turn
`n + f` fuel at the start state into `f` fuel at the end state. -/
theorem stepsN_parseLoop {buf : List Nat} {n : Nat}
    {p0 l0 r0 pa0 p1 l1 r1 pa1}
    (h : StepsN buf n p0 l0 r0 pa0 p1 l1 r1 pa1) :
    ∀ f : Nat, parseLoop (n + f) buf p0 l0 r0 pa0 = parseLoop f buf p1 l1 r1 pa1 := by
  induction h with
  | refl => intro f; rw [Nat.zero_add]
  | @step pos level root path q1 m1 s1 qa1 k q2 m2 s2 qa2 hs _ ih =>
    intro f
    have harith : k + 1 + f = (k + f) + 1 := by omega
    rw [harith]
    show parseLoop ((k + f) + 1) buf pos level root path = _
    rw [parseLoop, hs]
    exact ih f

/-! ## C5 — infrastructure: association-list algebra -/

/-- Structural induction over `PropMap` alone (the mutual recursor has
two motives, which the `induction` tactic cannot use directly); the
value components are not traversed. -/
theorem PropMap.inductionOn {motive : PropMap → Prop} (m : PropMap)
    (nil : motive .nil)
    (cons : ∀ (k : List Nat) (v : Property) (rest : PropMap),
      motive rest → motive (.cons k v rest)) : motive m :=
  match m with
  | .nil => nil
  | .cons k v rest => cons k v rest (PropMap.inductionOn rest nil cons)

/-- Looking up a key right after inserting it yields the new value. -/
theorem lookupP_insertP_self (m : PropMap) (k : List Nat) (v : Property) :
    (m.insertP k v).lookupP k = some v := by
  induction m using PropMap.inductionOn with
  | nil => simp [PropMap.insertP, PropMap.lookupP]
  | cons k2 v2 rest ih =>
    by_cases h : k = k2
    · simp [PropMap.insertP, h, PropMap.lookupP]
    · simp [PropMap.insertP, h, PropMap.lookupP, ih]

/-- Inserting twice at the same key keeps only the second value. -/
theorem insertP_insertP_self (m : PropMap) (k : List Nat) (v w : Property) :
    (m.insertP k v).insertP k w = m.insertP k w := by
  induction m using PropMap.inductionOn with
  | nil => simp [PropMap.insertP]
  | cons k2 v2 rest ih =>
    by_cases h : k = k2
    · simp [PropMap.insertP, h]
    · simp [PropMap.insertP, h, ih]

/-- Appending the empty map on the right is the identity. -/
theorem appendM_nil_right (m : PropMap) : m.appendM .nil = m := by
  induction m using PropMap.inductionOn with
  | nil => rfl
  | cons k v rest ih => simp [PropMap.appendM, ih]

/-- Association-list concatenation is associative. -/
theorem appendM_assoc (a b c : PropMap) :
    (a.appendM b).appendM c = a.appendM (b.appendM c) := by
  induction a using PropMap.inductionOn with
  | nil => rfl
  | cons k v rest ih => simp [PropMap.appendM, ih]

/-- Key membership distributes over concatenation. -/
theorem keyMemB_appendM (a b : PropMap) (k : List Nat) :
    (a.appendM b).keyMemB k = (a.keyMemB k || b.keyMemB k) := by
  induction a using PropMap.inductionOn with
  | nil => simp [PropMap.appendM, PropMap.keyMemB]
  | cons k2 v rest ih => simp [PropMap.appendM, PropMap.keyMemB, ih, Bool.or_assoc]

/-- Inserting an absent key appends the binding at the end. -/
theorem insertP_absent (m : PropMap) (k : List Nat) (v : Property)
    (h : m.keyMemB k = false) :
    m.insertP k v = m.appendM (.cons k v .nil) := by
  induction m using PropMap.inductionOn with
  | nil => rfl
  | cons k2 v2 rest ih =>
    simp only [PropMap.keyMemB, Bool.or_eq_false_iff, decide_eq_false_iff_not] at h
    simp [PropMap.insertP, h.1, PropMap.appendM, ih h.2]

/-- Inserting the entries of a well-formed map into a key-disjoint
accumulator concatenates them in order. -/
theorem insertAll_eq_appendM (m : PropMap) :
    ∀ acc : PropMap, wfMapB m = true →
      (∀ k2, m.keyMemB k2 = true → acc.keyMemB k2 = false) →
      insertAll acc m = acc.appendM m := by
  induction m using PropMap.inductionOn with
  | nil => intro acc _ _; simp [insertAll, appendM_nil_right]
  | cons k v rest ih =>
    intro acc hwf hdisj
    simp only [wfMapB, Bool.and_eq_true, Bool.not_eq_true'] at hwf
    obtain ⟨⟨⟨hk, hv⟩, hnod⟩, hrest⟩ := hwf
    have hkacc : acc.keyMemB k = false := by
      refine hdisj k ?_
      simp [PropMap.keyMemB]
    have hstep : insertAll acc (.cons k v rest) = insertAll (acc.appendM (.cons k v .nil)) rest := by
      rw [insertAll, insertP_absent acc k v hkacc]
    rw [hstep, ih (acc.appendM (.cons k v .nil)) hrest ?_, appendM_assoc]
    · rfl
    · intro k2 hk2
      rw [keyMemB_appendM, Bool.or_eq_false_iff]
      constructor
      · refine hdisj k2 ?_
        simp [PropMap.keyMemB, hk2]
      · simp only [PropMap.keyMemB, Bool.or_false, decide_eq_false_iff_not]
        intro hkk
        subst hkk
        rw [hk2] at hnod
        cases hnod

/-! ## C5 — infrastructure: the decoder-stack zipper -/

/-- The path of a pushed zipper frame appends its key. -/
theorem pathOf_cons (parent : PropMap) (k : List Nat)
    (ctx : List (PropMap × List Nat)) :
    pathOf ((parent, k) :: ctx) = pathOf ctx ++ [k] := by
  simp [pathOf]

/-- Updating at a concatenated path updates the suffix inside the
prefix. -/
theorem updateAt_append (p : List (List Nat)) :
    ∀ (q : List (List Nat)) (m : PropMap) (g : PropMap → Option PropMap),
      updateAt m (p ++ q) g = updateAt m p fun c => updateAt c q g := by
  induction p with
  | nil => intro q m g; rfl
  | cons x xs ih =>
    intro q m g
    show updateAt m (x :: (xs ++ q)) g = _
    rw [updateAt, updateAt]
    cases m.lookupP x with
    | none => rfl
    | some v =>
      cases v with
      | map inner => simp only [ih]
      | uint32 n => rfl
      | uint64 n => rfl
      | pstring s => rfl

/-- Walking a concatenated path walks the suffix from wherever the
prefix leads. -/
theorem walk_append (p : List (List Nat)) :
    ∀ (q : List (List Nat)) (m : PropMap),
      walk m (p ++ q) = match walk m p with
        | some c => walk c q
        | none => none := by
  induction p with
  | nil => intro q m; rfl
  | cons x xs ih =>
    intro q m
    show walk m (x :: (xs ++ q)) = _
    rw [walk, walk]
    cases m.lookupP x with
    | none => rfl
    | some v =>
      cases v with
      | map inner => simp only [ih]
      | uint32 n => rfl
      | uint64 n => rfl
      | pstring s => rfl

/-- Walking the zipper's path from the plugged tree lands on the open
map. -/
theorem walk_plug (ctx : List (PropMap × List Nat)) :
    ∀ cur : PropMap, walk (plug cur ctx) (pathOf ctx) = some cur := by
  induction ctx with
  | nil => intro cur; rfl
  | cons fr rest ih =>
    intro cur
    obtain ⟨parent, k⟩ := fr
    rw [pathOf_cons, plug, walk_append]
    rw [ih (parent.insertP k (.map cur))]
    show walk (parent.insertP k (.map cur)) [k] = some cur
    rw [walk, lookupP_insertP_self]
    rfl

/-- Updating through the zipper's path rewrites the open map in place. -/
theorem updateAt_plug (ctx : List (PropMap × List Nat)) :
    ∀ (cur cur2 : PropMap) (g : PropMap → Option PropMap), g cur = some cur2 →
      updateAt (plug cur ctx) (pathOf ctx) g = some (plug cur2 ctx) := by
  induction ctx with
  | nil => intro cur cur2 g hg; simpa [plug, pathOf, updateAt] using hg
  | cons fr rest ih =>
    intro cur cur2 g hg
    obtain ⟨parent, k⟩ := fr
    rw [pathOf_cons, plug, updateAt_append]
    have hinner : updateAt (parent.insertP k (.map cur)) [k] g
        = some (parent.insertP k (.map cur2)) := by
      show updateAt (parent.insertP k (.map cur)) (k :: []) g = _
      rw [updateAt, lookupP_insertP_self]
      show (match updateAt cur [] g with
        | some i2 => some ((parent.insertP k (.map cur)).insertP k (.map i2))
        | none => none) = _
      rw [updateAt, hg]
      simp [insertP_insertP_self]
    rw [ih (parent.insertP k (.map cur)) (parent.insertP k (.map cur2)) _ hinner]
    rfl

/-! ## C5 — infrastructure: reads at a known offset -/

/-- Indexing just past a known prefix reads from the suffix. -/
theorem getElem_pre (pre : List Nat) :
    ∀ (l : List Nat) (i : Nat), (pre ++ l)[pre.length + i]? = l[i]? := by
  induction pre with
  | nil => intro l i; simp
  | cons b rest ih =>
    intro l i
    show (b :: (rest ++ l))[rest.length + 1 + i]? = l[i]?
    have harith : rest.length + 1 + i = (rest.length + i) + 1 := by omega
    rw [harith, List.getElem?_cons_succ, ih l i]

/-- Reading one byte just past a known prefix. -/
theorem u8_pre (pre : List Nat) (b : Nat) (l : List Nat) :
    u8 (pre ++ b :: l) pre.length = .ok (b, pre.length + 1) := by
  have h := getElem_pre pre (b :: l) 0
  rw [Nat.add_zero] at h
  simp [u8, h]

/-- Reading four little-endian bytes just past a known prefix. -/
theorem le_u32_pre (pre : List Nat) (b0 b1 b2 b3 : Nat) (l : List Nat) :
    le_u32 (pre ++ b0 :: b1 :: b2 :: b3 :: l) pre.length
      = .ok (b0 + 256 * b1 + 65536 * b2 + 16777216 * b3, pre.length + 4) := by
  have h0 := getElem_pre pre (b0 :: b1 :: b2 :: b3 :: l) 0
  have h1 := getElem_pre pre (b0 :: b1 :: b2 :: b3 :: l) 1
  have h2 := getElem_pre pre (b0 :: b1 :: b2 :: b3 :: l) 2
  have h3 := getElem_pre pre (b0 :: b1 :: b2 :: b3 :: l) 3
  rw [Nat.add_zero] at h0
  simp [le_u32, h0, h1, h2, h3]

/-- Scanning a NUL-free chunk finds the terminator right after it. -/
theorem scanLen_ascii (k : List Nat) (hk : asciiB k = true) (l : List Nat) :
    scanLen (k ++ 0 :: l) = .ok k.length := by
  induction k with
  | nil => simp [scanLen]
  | cons b rest ih =>
    simp only [asciiB, List.all_cons, Bool.and_eq_true, decide_eq_true_eq] at hk
    have hb : b ≠ 0 := by omega
    rw [List.cons_append]
    show (if b = 0 then Except.ok 0
      else match scanLen (rest ++ 0 :: l) with
        | .ok n => .ok (n + 1)
        | .error e => .error e) = .ok (b :: rest).length
    rw [if_neg hb, ih (by simp [asciiB, hk.2])]
    simp

/-- Nonzero ASCII chunks pass the UTF-8 automaton. -/
theorem utf8Run_ascii (k : List Nat) (hk : asciiB k = true) : utf8Run 0 k = true := by
  induction k with
  | nil => rfl
  | cons b rest ih =>
    simp only [asciiB, List.all_cons, Bool.and_eq_true, decide_eq_true_eq] at hk
    have hb : b ≤ 127 := hk.1.2
    simp only [utf8Run, utf8Step, if_pos rfl, hb, if_pos]
    exact ih (by simp [asciiB, hk.2])

/-- Reading a NUL-terminated nonzero-ASCII string just past a known
prefix. -/
theorem string_pre (pre k : List Nat) (hk : asciiB k = true) (l : List Nat) :
    string (pre ++ (k ++ 0 :: l)) pre.length = .ok (k, pre.length + k.length + 1) := by
  have hdrop : (pre ++ (k ++ 0 :: l)).drop pre.length = k ++ 0 :: l :=
    List.drop_left pre (k ++ 0 :: l)
  have htake : (k ++ 0 :: l).take k.length = k := List.take_left k (0 :: l)
  rw [string, hdrop, scanLen_ascii k hk l]
  simp [htake, isUtf8, utf8Run_ascii k hk]

/-- Dropping the last element of a path that ends in `k` removes it. -/
theorem dropLast_append_singleton {α : Type} (l : List α) (a : α) :
    (l ++ [a]).dropLast = l := by
  simp

/-! ## C5 — infrastructure: the decoder branches in zipper form -/

/-- Tag `0x00` read at a zipper state: insert an empty map under the
key, push a frame, ascend one level; never the break. -/
theorem parseStep_begin {buf : List Nat} {pos : Nat} {level : Int}
    {ctx : List (PropMap × List Nat)} {cur : PropMap} {k : List Nat} {pos2 : Nat}
    (hu : u8 buf pos = .ok (0, pos + 1))
    (hs : string buf (pos + 1) = .ok (k, pos2)) :
    parseStep buf pos level (plug cur ctx) (pathOf ctx)
      = .ok (.inl (pos2, level + 1, plug .nil ((cur, k) :: ctx),
          pathOf ((cur, k) :: ctx))) := by
  have hupd := updateAt_plug ctx cur (cur.insertP k (.map .nil))
    (fun c => some (c.insertP k (.map .nil))) rfl
  simp [parseStep, hu, hs, hupd, checkBreak, pathOf_cons, plug]

/-- Tag `0x01` read at a zipper state: insert a string leaf into the
open map; level and path unchanged; never the break. -/
theorem parseStep_string_leaf {buf : List Nat} {pos : Nat} {level : Int}
    {ctx : List (PropMap × List Nat)} {cur : PropMap} {k s : List Nat} {pos2 pos3 : Nat}
    (hu : u8 buf pos = .ok (1, pos + 1))
    (hs1 : string buf (pos + 1) = .ok (k, pos2))
    (hs2 : string buf pos2 = .ok (s, pos3)) :
    parseStep buf pos level (plug cur ctx) (pathOf ctx)
      = .ok (.inl (pos3, level, plug (cur.insertP k (.pstring s)) ctx, pathOf ctx)) := by
  have hupd := updateAt_plug ctx cur (cur.insertP k (.pstring s))
    (fun c => some (c.insertP k (.pstring s))) rfl
  simp [parseStep, hu, hs1, hs2, hupd, checkBreak]

/-- Tag `0x02` read at a zipper state: insert a uint32 leaf into the
open map; level and path unchanged; never the break. -/
theorem parseStep_u32_leaf {buf : List Nat} {pos : Nat} {level : Int}
    {ctx : List (PropMap × List Nat)} {cur : PropMap} {k : List Nat} {n pos2 pos3 : Nat}
    (hu : u8 buf pos = .ok (2, pos + 1))
    (hs1 : string buf (pos + 1) = .ok (k, pos2))
    (hl : le_u32 buf pos2 = .ok (n, pos3)) :
    parseStep buf pos level (plug cur ctx) (pathOf ctx)
      = .ok (.inl (pos3, level, plug (cur.insertP k (.uint32 n)) ctx, pathOf ctx)) := by
  have hupd := updateAt_plug ctx cur (cur.insertP k (.uint32 n))
    (fun c => some (c.insertP k (.uint32 n))) rfl
  simp [parseStep, hu, hs1, hl, hupd, checkBreak]

/-- Tag `0x08` read at a nonempty zipper when the decremented level is
nonzero: pop the frame (folding the finished map into its parent) and
continue. -/
theorem parseStep_end_continue {buf : List Nat} {pos : Nat} {level : Int}
    {ctx : List (PropMap × List Nat)} {cur parent : PropMap} {k : List Nat}
    (hu : u8 buf pos = .ok (8, pos + 1)) (hlv : ¬level - 1 = 0) :
    parseStep buf pos level (plug cur ((parent, k) :: ctx)) (pathOf ((parent, k) :: ctx))
      = .ok (.inl (pos + 1, level - 1, plug (parent.insertP k (.map cur)) ctx,
          pathOf ctx)) := by
  have hdrop : (pathOf ((parent, k) :: ctx)).dropLast = pathOf ctx := by
    rw [pathOf_cons]; exact dropLast_append_singleton _ _
  have hplug : plug cur ((parent, k) :: ctx) = plug (parent.insertP k (.map cur)) ctx := rfl
  have hwalk : walk (plug (parent.insertP k (.map cur)) ctx) (pathOf ctx)
      = some (parent.insertP k (.map cur)) := walk_plug ctx _
  simp [parseStep, hu, hdrop, hwalk, checkBreak, hlv, hplug]

/-- Tag `0x08` read at a nonempty zipper when the decremented level is
zero: the break fires, returning the whole tree and the cursor just
past the tag. -/
theorem parseStep_end_break {buf : List Nat} {pos : Nat} {level : Int}
    {ctx : List (PropMap × List Nat)} {cur parent : PropMap} {k : List Nat}
    (hu : u8 buf pos = .ok (8, pos + 1)) (hlv : level - 1 = 0) :
    parseStep buf pos level (plug cur ((parent, k) :: ctx)) (pathOf ((parent, k) :: ctx))
      = .ok (.inr (plug cur ((parent, k) :: ctx), pos + 1)) := by
  have hdrop : (pathOf ((parent, k) :: ctx)).dropLast = pathOf ctx := by
    rw [pathOf_cons]; exact dropLast_append_singleton _ _
  have hplug : plug cur ((parent, k) :: ctx) = plug (parent.insertP k (.map cur)) ctx := rfl
  have hwalk : walk (plug (parent.insertP k (.map cur)) ctx) (pathOf ctx)
      = some (parent.insertP k (.map cur)) := walk_plug ctx _
  simp [parseStep, hu, hdrop, hwalk, checkBreak, hlv, hplug]

/-- Inserting the entries of a well-formed map into the empty map
reproduces it exactly. -/
theorem insertAll_nil (m : PropMap) (hm : wfMapB m = true) : insertAll .nil m = m := by
  have h := insertAll_eq_appendM m .nil hm (fun k2 _ => rfl)
  simpa [PropMap.appendM] using h

mutual

/-- Decoding the encoding of one well-formed entry from any zipper
state at level ≥ 1 takes `tagCountP v` iterations, consumes exactly the
encoding, and inserts the entry into the open map. -/
theorem stepsN_encodeProp (v : Property) (k : List Nat) (hv : wfValB v = true)
    (hk : asciiB k = true) :
    ∀ (pre l : List Nat) (ctx : List (PropMap × List Nat)) (cur : PropMap) (level : Int),
      1 ≤ level →
      StepsN (pre ++ (encodeProp k v ++ l)) (tagCountP v)
        pre.length level (plug cur ctx) (pathOf ctx)
        (pre.length + (encodeProp k v).length) level
        (plug (cur.insertP k v) ctx) (pathOf ctx) := by
  intro pre l ctx cur level hlv
  cases v with
  | uint64 n => simp [wfValB] at hv
  | uint32 n =>
    have hn : n < 4294967296 := by simpa [wfValB] using hv
    have hbuf : pre ++ (encodeProp k (.uint32 n) ++ l)
        = pre ++ 2 :: (k ++ 0 :: (le4 n ++ l)) := by
      simp [encodeProp]
    have hlen : pre.length + (encodeProp k (.uint32 n)).length
        = pre.length + 1 + k.length + 1 + 4 := by
      simp [encodeProp, le4]; omega
    rw [hbuf, hlen]
    have hu : u8 (pre ++ 2 :: (k ++ 0 :: (le4 n ++ l))) pre.length
        = .ok (2, pre.length + 1) := u8_pre pre 2 _
    have hs1 : string (pre ++ 2 :: (k ++ 0 :: (le4 n ++ l))) (pre.length + 1)
        = .ok (k, pre.length + 1 + k.length + 1) := by
      have h := string_pre (pre ++ [2]) k hk (le4 n ++ l)
      simpa [List.append_assoc] using h
    have hl32 : le_u32 (pre ++ 2 :: (k ++ 0 :: (le4 n ++ l))) (pre.length + 1 + k.length + 1)
        = .ok (n, pre.length + 1 + k.length + 1 + 4) := by
      have h := le_u32_pre (pre ++ 2 :: (k ++ [0])) (n % 256) (n / 256 % 256)
        (n / 65536 % 256) (n / 16777216 % 256) l
      have hval : n % 256 + 256 * (n / 256 % 256) + 65536 * (n / 65536 % 256)
          + 16777216 * (n / 16777216 % 256) = n := by omega
      have hplen : (pre ++ 2 :: (k ++ [0])).length = pre.length + 1 + k.length + 1 := by
        simp; omega
      rw [hplen, hval] at h
      simpa [le4, List.append_assoc] using h
    exact StepsN.single (parseStep_u32_leaf hu hs1 hl32)
  | pstring s =>
    have hs : asciiB s = true := by simpa [wfValB] using hv
    have hbuf : pre ++ (encodeProp k (.pstring s) ++ l)
        = pre ++ 1 :: (k ++ 0 :: (s ++ 0 :: l)) := by
      simp [encodeProp]
    have hlen : pre.length + (encodeProp k (.pstring s)).length
        = pre.length + 1 + k.length + 1 + s.length + 1 := by
      simp [encodeProp]; omega
    rw [hbuf, hlen]
    have hu : u8 (pre ++ 1 :: (k ++ 0 :: (s ++ 0 :: l))) pre.length
        = .ok (1, pre.length + 1) := u8_pre pre 1 _
    have hs1 : string (pre ++ 1 :: (k ++ 0 :: (s ++ 0 :: l))) (pre.length + 1)
        = .ok (k, pre.length + 1 + k.length + 1) := by
      have h := string_pre (pre ++ [1]) k hk (s ++ 0 :: l)
      simpa [List.append_assoc] using h
    have hs2 : string (pre ++ 1 :: (k ++ 0 :: (s ++ 0 :: l))) (pre.length + 1 + k.length + 1)
        = .ok (s, pre.length + 1 + k.length + 1 + s.length + 1) := by
      have h := string_pre (pre ++ 1 :: (k ++ [0])) s hs l
      have hplen : (pre ++ 1 :: (k ++ [0])).length = pre.length + 1 + k.length + 1 := by
        simp; omega
      rw [hplen] at h
      simpa [List.append_assoc] using h
    exact StepsN.single (parseStep_string_leaf hu hs1 hs2)
  | map inner =>
    have hinner : wfMapB inner = true := by simpa [wfValB] using hv
    have hbuf : pre ++ (encodeProp k (.map inner) ++ l)
        = pre ++ 0 :: (k ++ 0 :: (encodeEntries inner ++ 8 :: l)) := by
      simp [encodeProp]
    have hlen : pre.length + (encodeProp k (.map inner)).length
        = pre.length + 1 + k.length + 1 + (encodeEntries inner).length + 1 := by
      simp [encodeProp]; omega
    rw [hbuf, hlen]
    have hu : u8 (pre ++ 0 :: (k ++ 0 :: (encodeEntries inner ++ 8 :: l))) pre.length
        = .ok (0, pre.length + 1) := u8_pre pre 0 _
    have hstr : string (pre ++ 0 :: (k ++ 0 :: (encodeEntries inner ++ 8 :: l)))
        (pre.length + 1) = .ok (k, pre.length + 1 + k.length + 1) := by
      have h := string_pre (pre ++ [0]) k hk (encodeEntries inner ++ 8 :: l)
      simpa [List.append_assoc] using h
    have h1 : StepsN (pre ++ 0 :: (k ++ 0 :: (encodeEntries inner ++ 8 :: l))) 1
        pre.length level (plug cur ctx) (pathOf ctx)
        (pre.length + 1 + k.length + 1) (level + 1)
        (plug .nil ((cur, k) :: ctx)) (pathOf ((cur, k) :: ctx)) :=
      StepsN.single (parseStep_begin hu hstr)
    have h2 : StepsN (pre ++ 0 :: (k ++ 0 :: (encodeEntries inner ++ 8 :: l)))
        (tagCountM inner)
        (pre.length + 1 + k.length + 1) (level + 1)
        (plug .nil ((cur, k) :: ctx)) (pathOf ((cur, k) :: ctx))
        (pre.length + 1 + k.length + 1 + (encodeEntries inner).length) (level + 1)
        (plug (insertAll .nil inner) ((cur, k) :: ctx)) (pathOf ((cur, k) :: ctx)) := by
      have h := stepsN_encodeEntries inner hinner (pre ++ 0 :: (k ++ [0])) (8 :: l)
        ((cur, k) :: ctx) .nil (level + 1) (by omega)
      have hplen : (pre ++ 0 :: (k ++ [0])).length = pre.length + 1 + k.length + 1 := by
        simp; omega
      rw [hplen] at h
      simpa [List.append_assoc] using h
    have hu8 : u8 (pre ++ 0 :: (k ++ 0 :: (encodeEntries inner ++ 8 :: l)))
        (pre.length + 1 + k.length + 1 + (encodeEntries inner).length)
        = .ok (8, pre.length + 1 + k.length + 1 + (encodeEntries inner).length + 1) := by
      have h := u8_pre (pre ++ 0 :: (k ++ [0]) ++ encodeEntries inner) 8 l
      have hplen : (pre ++ 0 :: (k ++ [0]) ++ encodeEntries inner).length
          = pre.length + 1 + k.length + 1 + (encodeEntries inner).length := by
        simp; omega
      rw [hplen] at h
      simpa [List.append_assoc] using h
    have h3 : StepsN (pre ++ 0 :: (k ++ 0 :: (encodeEntries inner ++ 8 :: l))) 1
        (pre.length + 1 + k.length + 1 + (encodeEntries inner).length) (level + 1)
        (plug (insertAll .nil inner) ((cur, k) :: ctx)) (pathOf ((cur, k) :: ctx))
        (pre.length + 1 + k.length + 1 + (encodeEntries inner).length + 1) level
        (plug (cur.insertP k (.map (insertAll .nil inner))) ctx) (pathOf ctx) := by
      have hend := @parseStep_end_continue _ _ (level + 1) ctx (insertAll .nil inner)
        cur k hu8 (by omega)
      have harith : level + 1 - 1 = level := by omega
      rw [harith] at hend
      exact StepsN.single hend
    rw [insertAll_nil inner hinner] at h2 h3
    exact StepsN.comp h1 (StepsN.comp h2 h3 rfl) (by simp [tagCountP]; omega)

/-- Decoding the encoding of a well-formed map's entries from any
zipper state at level ≥ 1 takes `tagCountM m` iterations, consumes
exactly the encoding, and inserts every entry in order into the open
map. -/
theorem stepsN_encodeEntries (m : PropMap) (hm : wfMapB m = true) :
    ∀ (pre l : List Nat) (ctx : List (PropMap × List Nat)) (cur : PropMap) (level : Int),
      1 ≤ level →
      StepsN (pre ++ (encodeEntries m ++ l)) (tagCountM m)
        pre.length level (plug cur ctx) (pathOf ctx)
        (pre.length + (encodeEntries m).length) level
        (plug (insertAll cur m) ctx) (pathOf ctx) := by
  intro pre l ctx cur level hlv
  cases m with
  | nil =>
    have : pre ++ (encodeEntries .nil ++ l) = pre ++ l := by simp [encodeEntries]
    rw [this]
    show StepsN (pre ++ l) 0 pre.length level (plug cur ctx) (pathOf ctx)
      (pre.length + (encodeEntries .nil).length) level
      (plug (insertAll cur .nil) ctx) (pathOf ctx)
    have h0 : pre.length + (encodeEntries PropMap.nil).length = pre.length := by
      simp [encodeEntries]
    rw [h0]
    exact StepsN.refl _ _ _ _
  | cons k v rest =>
    have hwf := hm
    simp only [wfMapB, Bool.and_eq_true] at hwf
    obtain ⟨⟨⟨hk, hv⟩, _hnod⟩, hrest⟩ := hwf
    have h1 : StepsN (pre ++ (encodeEntries (.cons k v rest) ++ l)) (tagCountP v)
        pre.length level (plug cur ctx) (pathOf ctx)
        (pre.length + (encodeProp k v).length) level
        (plug (cur.insertP k v) ctx) (pathOf ctx) := by
      have h := stepsN_encodeProp v k hv hk pre (encodeEntries rest ++ l) ctx cur level hlv
      simpa [encodeEntries, List.append_assoc] using h
    have h2 : StepsN (pre ++ (encodeEntries (.cons k v rest) ++ l)) (tagCountM rest)
        (pre.length + (encodeProp k v).length) level
        (plug (cur.insertP k v) ctx) (pathOf ctx)
        (pre.length + (encodeProp k v).length + (encodeEntries rest).length) level
        (plug (insertAll (cur.insertP k v) rest) ctx) (pathOf ctx) := by
      have h := stepsN_encodeEntries rest hrest (pre ++ encodeProp k v) l ctx
        (cur.insertP k v) level hlv
      have hplen : (pre ++ encodeProp k v).length = pre.length + (encodeProp k v).length := by
        simp
      rw [hplen] at h
      simpa [encodeEntries, List.append_assoc] using h
    have hfin : pre.length + (encodeEntries (.cons k v rest)).length
        = pre.length + (encodeProp k v).length + (encodeEntries rest).length := by
      simp [encodeEntries]; omega
    rw [hfin]
    show StepsN _ (tagCountM (.cons k v rest)) _ _ _ _ _ _
      (plug (insertAll cur (.cons k v rest)) ctx) _
    rw [insertAll]
    exact StepsN.comp h1 h2 (by simp [tagCountM])

end

mutual

/-- Each encoded entry is at least as long in bytes as in tag count. -/
theorem tagCountP_le_length (v : Property) (k : List Nat) (hv : wfValB v = true) :
    tagCountP v ≤ (encodeProp k v).length := by
  cases v with
  | uint64 n => simp [wfValB] at hv
  | uint32 n => simp [tagCountP, encodeProp, le4]
  | pstring s => simp [tagCountP, encodeProp]
  | map inner =>
    have h := tagCountM_le_length inner (by simpa [wfValB] using hv)
    simp [tagCountP, encodeProp]
    omega

/-- A map's encoded entries are at least as long in bytes as in tag
count. -/
theorem tagCountM_le_length (m : PropMap) (hm : wfMapB m = true) :
    tagCountM m ≤ (encodeEntries m).length := by
  cases m with
  | nil => simp [tagCountM, encodeEntries]
  | cons k v rest =>
    have hwf := hm
    simp only [wfMapB, Bool.and_eq_true] at hwf
    obtain ⟨⟨⟨hk, hv⟩, _⟩, hrest⟩ := hwf
    have h1 := tagCountP_le_length v k hv
    have h2 := tagCountM_le_length rest hrest
    simp [tagCountM, encodeEntries]
    omega

end

/-- C5: round-trip of structure.  For every well-formed property tree —
arbitrary nesting depth `d ≥ 0`, nonzero-ASCII keys unique per level, no
uint64 leaves — decoding its encoding (the properly nested begin/end tag
stream `00 k 00 | entries | 08`, followed by any trailing bytes) from an
empty state terminates exactly at the matching root `0x08` (the break
leaves the open-map stack empty: the root close pops the path to `[]`
and the level to 0) having consumed exactly the encoding's bytes, and
returns the encoded tree EXACTLY — so its nesting depth and its key set
at every level equal those encoded in the stream. -/
theorem claim5_roundtrip (k : List Nat) (m : PropMap) (hk : asciiB k = true)
    (hm : wfMapB m = true) (rest : List Nat) :
    parseLoop ((encodeProp k (.map m) ++ rest).length + 1) (encodeProp k (.map m) ++ rest)
      0 0 .nil []
      = .ok (.cons k (.map m) .nil, (encodeProp k (.map m)).length) := by
  have hbuf : encodeProp k (.map m) ++ rest
      = 0 :: (k ++ 0 :: (encodeEntries m ++ 8 :: rest)) := by
    simp [encodeProp]
  have hslen : (encodeProp k (.map m)).length
      = k.length + 2 + (encodeEntries m).length + 1 := by
    simp [encodeProp]; omega
  rw [hbuf, hslen]
  have hblen : (0 :: (k ++ 0 :: (encodeEntries m ++ 8 :: rest))).length
      = k.length + 2 + (encodeEntries m).length + 1 + rest.length := by
    simp; omega
  rw [hblen]
  -- first iteration: the begin-map tag of the root key
  have hu : u8 (0 :: (k ++ 0 :: (encodeEntries m ++ 8 :: rest))) 0 = .ok (0, 0 + 1) := by
    simp [u8]
  have hs : string (0 :: (k ++ 0 :: (encodeEntries m ++ 8 :: rest))) (0 + 1)
      = .ok (k, k.length + 2) := by
    have h := string_pre [0] k hk (encodeEntries m ++ 8 :: rest)
    have e : 1 + k.length + 1 = k.length + 2 := by omega
    simpa [e] using h
  have h1 : StepsN (0 :: (k ++ 0 :: (encodeEntries m ++ 8 :: rest))) 1 0 0 .nil []
      (k.length + 2) 1 (.cons k (.map .nil) .nil) [k] := by
    have h := StepsN.single (@parseStep_begin _ _ 0 [] .nil _ _ hu hs)
    simpa [plug, pathOf, PropMap.insertP] using h
  -- middle: the encoded entries of the root map
  have h2 : StepsN (0 :: (k ++ 0 :: (encodeEntries m ++ 8 :: rest))) (tagCountM m)
      (k.length + 2) 1 (.cons k (.map .nil) .nil) [k]
      (k.length + 2 + (encodeEntries m).length) 1 (.cons k (.map m) .nil) [k] := by
    have h := stepsN_encodeEntries m hm (0 :: (k ++ [0])) (8 :: rest)
      [(.nil, k)] .nil 1 (by omega)
    have hplen : (0 :: (k ++ [0])).length = k.length + 2 := by simp
    rw [hplen, insertAll_nil m hm] at h
    simpa [plug, pathOf, PropMap.insertP, List.append_assoc] using h
  -- last iteration: the matching end-map tag at level 1 fires the break
  have hu8 : u8 (0 :: (k ++ 0 :: (encodeEntries m ++ 8 :: rest)))
      (k.length + 2 + (encodeEntries m).length)
      = .ok (8, k.length + 2 + (encodeEntries m).length + 1) := by
    have h := u8_pre (0 :: (k ++ [0]) ++ encodeEntries m) 8 rest
    have hplen : (0 :: (k ++ [0]) ++ encodeEntries m).length
        = k.length + 2 + (encodeEntries m).length := by
      simp; omega
    rw [hplen] at h
    simpa [List.append_assoc] using h
  have h3 : parseStep (0 :: (k ++ 0 :: (encodeEntries m ++ 8 :: rest)))
      (k.length + 2 + (encodeEntries m).length) 1 (.cons k (.map m) .nil) [k]
      = .ok (.inr (PropMap.cons k (.map m) .nil,
          k.length + 2 + (encodeEntries m).length + 1)) := by
    have h := @parseStep_end_break _ _ 1 [] m .nil k hu8 (by omega)
    simpa [plug, pathOf, PropMap.insertP] using h
  -- glue: translate the counted steps into the fuel the entry point uses
  have hcomp := StepsN.comp h1 h2 (rfl : 1 + tagCountM m = 1 + tagCountM m)
  have hloop := stepsN_parseLoop hcomp
  have hle := tagCountM_le_length m hm
  have hff : (1 + tagCountM m)
      + ((k.length + 2 + (encodeEntries m).length + 1 + rest.length - (1 + tagCountM m)) + 1)
      = k.length + 2 + (encodeEntries m).length + 1 + rest.length + 1 := by
    omega
  have h4 := hloop
    ((k.length + 2 + (encodeEntries m).length + 1 + rest.length - (1 + tagCountM m)) + 1)
  rw [hff] at h4
  rw [h4, parseLoop, h3]

/-- The tree of the specification's own example,
`{a: UInt32 7, b: {c: String "x"}}`. -/
def c5tree : PropMap :=
  .cons [0x61] (.uint32 7) (.cons [0x62] (.map (.cons [0x63] (.pstring [0x78]) .nil)) .nil)

/-- Witness for `claim5_roundtrip` on the specification's example tree
under root key `"r"`, with nothing after the stream. -/
theorem claim5_roundtrip_witness :
    parseLoop ((encodeProp [0x72] (.map c5tree) ++ []).length + 1)
      (encodeProp [0x72] (.map c5tree) ++ []) 0 0 .nil []
      = .ok (.cons [0x72] (.map c5tree) .nil, (encodeProp [0x72] (.map c5tree)).length) :=
  claim5_roundtrip [0x72] c5tree (by decide) (by decide) []
